import Mathlib

/-!
A shallow embedding of the MovieLens example notebook
(`docs/movielens/movielens.ipynb`): the path bookkeeping of the path cell,
the four job objects handed to the deepr framework, the pipeline wiring,
and the visualization helpers (`mapp` / `inversed_map`, `knn_query`,
`display_results_df`, `display_movie`).

Parts of the deepr framework that the notebook calls but whose code is not
in this artifact (`dpr.jobs.Pipeline.run`, `dpr.vocab.size`, the body of
`movielens.jobs.BuildRecords`) are modelled from the specification's
description; each such definition carries a doc comment starting
`Modelled from the spec:`.
-/

namespace Movielens

/-! ## Paths (notebook cell defining `path_root` and friends)

`dataset_path` is `os.getcwd() + "/ml-20m"`; the working directory is not
part of the artifact, so definitions that need it take it as a parameter. -/

def path_ratings (dataset_path : String) : String := dataset_path ++ "/ratings.csv"

def path_root : String := "average"

def path_model : String := path_root ++ "/model"

def path_data : String := path_root ++ "/data"

def path_variables : String := path_root ++ "/variables"

def path_predictions : String := path_root ++ "/predictions.parquet.snappy"

def path_saved_model : String := path_root ++ "/saved_model"

def path_mapping : String := path_data ++ "/mapping.txt"

def path_train : String := path_data ++ "/train.tfrecord.gz"

def path_eval : String := path_data ++ "/eval.tfrecord.gz"

def path_test : String := path_data ++ "/test.tfrecord.gz"

def max_steps : Nat := 100000

/-! ## The four job objects

Each job class lives in the deepr framework / its movielens example package;
the notebook only constructs them with keyword arguments.  The structures
below capture those constructor arguments.  `target_ratio` is the float
literal `0.2` of the source, represented exactly as the rational `1/5`;
`keep_prob = 0.5` likewise as `1/2`. -/

structure BuildRecords where
  path_ratings : String
  path_mapping : String
  path_train : String
  path_eval : String
  path_test : String
  min_rating : Nat
  min_length : Nat
  num_negatives : Nat
  target_ratio : ℚ
  size_test : Nat
  size_eval : Nat
  shuffle_timelines : Bool
  seed : Nat

/-- `build = movielens.jobs.BuildRecords(...)` from the notebook. -/
def build (dataset_path : String) : BuildRecords :=
  { path_ratings := path_ratings dataset_path
    path_mapping := path_mapping
    path_train := path_train
    path_eval := path_eval
    path_test := path_test
    min_rating := 4
    min_length := 5
    num_negatives := 8
    target_ratio := 1/5
    size_test := 10000
    size_eval := 10000
    shuffle_timelines := true
    seed := 2020 }

/-- The `dpr.exporters.SaveVariables(path_variables=..., variable_names=...)`
exporter argument object. -/
structure SaveVariables where
  path_variables : String
  variable_names : List String

/-- The three exporter argument objects passed to the Trainer, in order. -/
inductive Exporter where
  | bestCheckpoint (metric : String) (mode : String)
  | saveVariables (sv : SaveVariables)
  | savedModel (path_saved_model : String) (field_names : List String)

/-- The `dpr.readers.TFRecordReader(path, shuffle=...)` argument object.
`shuffle` defaults to true in the framework; the notebook passes
`shuffle=False` for the eval and test readers. -/
structure TFRecordReader where
  path : String
  shuffle : Bool

/-- The Trainer constructor arguments the claims are about: the model/loss
vocabulary sizes are produced by `dpr.vocab.size(path_mapping)` (see
`constructTrainReads` for the reads this evaluation performs), the input
readers, and the exporters.  The remaining keyword arguments of the source
cell (optimizer, prepro, train/eval/final specs, hooks, metrics, run config)
are further captured parameters of the same kind and are not repeated here. -/
structure Trainer where
  path_model : String
  pred_vocab_size : Nat
  pred_dim : Nat
  pred_keep_prob : ℚ
  loss : String
  loss_vocab_size : Nat
  train_input_fn : TFRecordReader
  eval_input_fn : TFRecordReader
  exporters : List Exporter

/-- Modelled from the spec: `dpr.vocab.size` (deepr framework, not under
`src/`) returns the number of tokens of the vocabulary mapping file — the
spec's "vocabulary mapping file" hand-off.  It is a pure function of the
file's token list. -/
def vocabSize (tokens : List (List Char)) : Nat := tokens.length

/-- `train = dpr.jobs.Trainer(...)` from the notebook, as a function of the
token list of the mapping file read by the two `dpr.vocab.size(path_mapping)`
argument expressions. -/
def train (mappingTokens : List (List Char)) : Trainer :=
  { path_model := path_model
    pred_vocab_size := vocabSize mappingTokens
    pred_dim := 100
    pred_keep_prob := 1/2
    loss := "bpr"
    loss_vocab_size := vocabSize mappingTokens
    train_input_fn := { path := path_train, shuffle := true }
    eval_input_fn := { path := path_eval, shuffle := false }
    exporters :=
      [ Exporter.bestCheckpoint "triplet_precision" "increase"
      , Exporter.saveVariables { path_variables := path_variables
                                 variable_names := ["biases", "embeddings"] }
      , Exporter.savedModel path_saved_model ["inputPositives", "inputMask"] ] }

/-- The `SaveVariables` exporter object of the notebook's Trainer cell. -/
def train_save_variables : SaveVariables :=
  { path_variables := path_variables, variable_names := ["biases", "embeddings"] }

structure Predict where
  path_saved_model : String
  path_predictions : String
  input_path : String
  input_shuffle : Bool

/-- `predict = movielens.jobs.Predict(...)` from the notebook. -/
def predict : Predict :=
  { path_saved_model := path_saved_model
    path_predictions := path_predictions
    input_path := path_test
    input_shuffle := false }

structure Evaluate where
  path_predictions : String
  path_embeddings : String
  path_biases : String
  k : Nat

/-- `evaluate = [movielens.jobs.Evaluate(...) for k in [10, 20, 50]]` from
the notebook. -/
def evaluate : List Evaluate :=
  [10, 20, 50].map fun k =>
    { path_predictions := path_predictions
      path_embeddings := path_variables ++ "/embeddings"
      path_biases := path_variables ++ "/biases"
      k := k }

/-! ## Observable work performed while the notebook CONSTRUCTS the jobs

Constructing `build`, `predict` and each `Evaluate` evaluates only literals
and the path strings.  The Trainer cell, before calling the constructor,
evaluates `dpr.vocab.size(path_mapping)` twice (once for `pred_fn`, once
for `loss_fn`); each evaluation reads the mapping file.  This is why the
notebook runs `build.run()` before defining `train` ("we need to know the
vocabulary size"). -/

/-- A file path read while a notebook cell evaluates. -/
inductive Eff where
  | readFile (path : String)
deriving DecidableEq

/-- Modelled from the spec: constructing `BuildRecords` is parameter capture
("a thin parameter object"); the cell performs no reads. -/
def constructBuildReads : List Eff := []

/-- Modelled from the spec: the Trainer cell's reads.  Evaluating
`dpr.vocab.size(path_mapping)` reads the vocabulary mapping file; the
expression appears twice among the Trainer's arguments. -/
def constructTrainReads : List Eff := [Eff.readFile path_mapping, Eff.readFile path_mapping]

/-- Modelled from the spec: constructing `Predict` is parameter capture; the
cell performs no reads. -/
def constructPredictReads : List Eff := []

/-- Modelled from the spec: constructing the three `Evaluate` jobs is
parameter capture; the cell performs no reads. -/
def constructEvaluateReads : List Eff := []

/-! ## Pipeline wiring and execution order -/

/-- A stage of the notebook's pipeline, identified by its job. -/
inductive Stage where
  | build
  | train
  | predict
  | evaluate (k : Nat)
deriving DecidableEq

/-- Execution events: a stage starting and a stage completing. -/
inductive Event where
  | start (s : Stage)
  | finish (s : Stage)
deriving DecidableEq

/-- Modelled from the spec: `dpr.jobs.Pipeline.run` (deepr framework, not
under `src/`) runs its jobs strictly sequentially, completing each job
before starting the next ("four sequential, externally-delegated stages"). -/
def pipelineRun (jobs : List Stage) : List Event :=
  (jobs.map fun j => [Event.start j, Event.finish j]).flatten

/-- The job list of `pipeline = dpr.jobs.Pipeline([train, predict] + evaluate)`. -/
def pipelineJobs : List Stage :=
  [Stage.train, Stage.predict] ++ evaluate.map fun e => Stage.evaluate e.k

/-- The notebook's whole execution trace: `build.run()` in its own cell,
then `pipeline.run()`. -/
def notebookTrace : List Event :=
  pipelineRun [Stage.build] ++ pipelineRun pipelineJobs

/-! ## Visualization helpers: the KNN query -/

/-- Modelled from the spec: an external faiss nearest-neighbor index.
`search` takes a batch of query vectors and `ksearch` and returns the pair
of matrices `(D, I)` of distances and neighbor indices, one row per query of
the batch. -/
structure FaissIndex where
  search : List (List ℚ) → Nat → List (List ℚ) × List (List Int)

/-- The Python list comprehension `[inversed_map[i] for i in product_indices]`:
look every index up in turn; `none` models the KeyError at a missing index. -/
def lookupAll (inv : Int → Option Int) : List Int → Option (List Int)
  | [] => some []
  | i :: rest =>
    match inv i, lookupAll inv rest with
    | some v, some vs => some (v :: vs)
    | _, _ => none

/-- `knn_query(index, query, ksearch)` from the notebook: delegate to
`index.search` on the query expanded to a batch of one, read off row 0 of
`D` and `I`, map the indices through `inversed_map`, and zip.  `none` models
the KeyError of an index missing from `inversed_map`. -/
def knn_query (index : FaissIndex) (inversed : Int → Option Int)
    (query : List ℚ) (ksearch : Nat) : Option (List (Int × ℚ)) :=
  let DI := index.search [query] ksearch
  let distances := DI.1.headD []
  let product_indices := DI.2.headD []
  match lookupAll inversed product_indices with
  | some product_ids => some (product_ids.zip distances)
  | none => none

/-! ## `mapp` and `inversed_map` (the mapping-file dictionaries) -/

/-- Python `content.split("\x5cn")` on the characters of the file: split on
newlines, keeping empty pieces, so the result has one piece more than the
content has newline characters. -/
def splitNl : List Char → List (List Char)
  | [] => [[]]
  | c :: cs =>
    match splitNl cs with
    | [] => [[]]
    | t :: ts => if c = '\n' then [] :: t :: ts else (c :: t) :: ts

/-- Model of Python `int(s)` on the characters of one token: strip
surrounding whitespace, allow one optional sign, then require one or more
decimal digits; `none` models the ValueError.  (Python additionally accepts
underscores between digits; no claim depends on that.) -/
def pyIntChars (s : List Char) : Option Int :=
  let t := ((s.dropWhile Char.isWhitespace).reverse.dropWhile Char.isWhitespace).reverse
  let core : Int × List Char :=
    match t with
    | '-' :: rest => (-1, rest)
    | '+' :: rest => (1, rest)
    | _ => (1, t)
  if !core.2.isEmpty && core.2.all Char.isDigit then
    some (core.1 * ((core.2.foldl (fun a c => 10 * a + (c.toNat - 48)) 0 : Nat) : Int))
  else none

/-- The dict comprehension
`{int(movie_id): indice for indice, movie_id in enumerate(tokens)}` before
dictionary collapsing: parse every token, pairing its value with its
position; `none` models the ValueError of the first unparsable token. -/
def parseTokens : List (List Char) → Nat → Option (List (Int × Nat))
  | [], _ => some []
  | t :: ts, i =>
    match pyIntChars t, parseTokens ts (i + 1) with
    | some v, some rest => some ((v, i) :: rest)
    | _, _ => none

/-- One Python dict assignment `d[k] = v`: overwrite in place when the key is
present, append otherwise (CPython keeps the first-insertion position). -/
def pyDictInsert {α β : Type} [DecidableEq α] (d : List (α × β)) (k : α) (v : β) :
    List (α × β) :=
  if k ∈ d.map Prod.fst then d.map fun p => if p.1 = k then (k, v) else p
  else d ++ [(k, v)]

/-- A Python dict built from a sequence of key-value assignments in order. -/
def pyDict {α β : Type} [DecidableEq α] (entries : List (α × β)) : List (α × β) :=
  entries.foldl (fun d p => pyDictInsert d p.1 p.2) []

/-- Python `d[k]` on the entry list: the value of the last assignment to `k`;
`none` models the KeyError of a missing key. -/
def dictGet {α β : Type} [DecidableEq α] : List (α × β) → α → Option β
  | [], _ => none
  | p :: ps, k =>
    match dictGet ps k with
    | some v => some v
    | none => if p.1 = k then some p.2 else none

/-- `mapp = {int(movie_id): indice for indice, movie_id in
enumerate(open(...).read().split("\x5cn"))}` as a function of the mapping
file's characters; `none` models the ValueError. -/
def mappOf (content : List Char) : Option (List (Int × Nat)) :=
  (parseTokens (splitNl content) 0).map pyDict

/-- `inversed_map = {indice: movie_id for movie_id, indice in mapp.items()}`. -/
def inversedMapOf (content : List Char) : Option (List (Nat × Int)) :=
  (mappOf content).map fun m => pyDict (m.map Prod.swap)

/-! ## Movie table and display helpers -/

/-- One row of `movies.csv` as loaded into the `movies` dataframe. -/
structure MovieRow where
  movieId : Int
  title : String
  genres : String

/-- `movies[movies.movieId == movie_id][col].to_numpy()[0]`: the `col` field
of the first row whose `movieId` matches; `none` models the IndexError of
indexing `[0]` into an empty array. -/
def movieFieldAt {α : Type} (movies : List MovieRow) (col : MovieRow → α)
    (movie_id : Int) : Option α :=
  ((movies.filter fun r => r.movieId == movie_id).map col).head?

/-- A row of the dataframe `display_results_df` builds: the columns `Genre`,
`Title`, `Distance`. -/
structure ResultRow where
  genre : String
  title : String
  distance : ℚ
deriving DecidableEq

/-- The row the `display_results_df` comprehension builds for one
`(movie_id, distance)` pair. -/
def rowFor (movies : List MovieRow) (p : Int × ℚ) : Option ResultRow :=
  match movieFieldAt movies MovieRow.genres p.1, movieFieldAt movies MovieRow.title p.1 with
  | some g, some t => some { genre := g, title := t, distance := p.2 }
  | _, _ => none

/-- `display_results_df(results)`: one row per pair, in input order; `none`
models the IndexError raised at the first pair whose movie id is absent from
the movies table. -/
def display_results_df (movies : List MovieRow) : List (Int × ℚ) → Option (List ResultRow)
  | [] => some []
  | p :: rest =>
    match rowFor movies p, display_results_df movies rest with
    | some r, some rs => some (r :: rs)
    | _, _ => none

/-- `display_movie(movie_id)`: the single `[genres, title]` row; `none`
models the IndexError when the movie id is absent from the movies table. -/
def display_movie (movies : List MovieRow) (movie_id : Int) : Option (String × String) :=
  match movieFieldAt movies MovieRow.genres movie_id, movieFieldAt movies MovieRow.title movie_id with
  | some g, some t => some (g, t)
  | _, _ => none

/-! ## The records the BuildRecords job writes (modelled) -/

/-- One serialized record: a user's timeline split into input and target. -/
structure TimelineRecord where
  inputIds : List Int
  targetIds : List Int
deriving DecidableEq

/-- Modelled from the spec: the split of one timeline — "ordered sequence of
a user's movie ratings, split into an input prefix and a target suffix",
the suffix holding fraction `target_ratio` of the timeline. -/
def splitTimeline (target_ratio : ℚ) (tl : List Int) : TimelineRecord :=
  let nTarget := ⌊target_ratio * tl.length⌋₊
  { inputIds := tl.take (tl.length - nTarget), targetIds := tl.drop (tl.length - nTarget) }

/-- Modelled from the spec: one user's timeline after rating filtering — the
ordered movie ids of the user's ratings whose value is at least
`min_rating`. -/
def keptTimeline (min_rating : Nat) (ratings : List (ℚ × Int)) : List Int :=
  (ratings.filter fun r => decide ((min_rating : ℚ) ≤ r.1)).map Prod.snd

/-- Modelled from the spec: the pool of records the BuildRecords job writes
across its train, eval and test files.  `users` holds each user's ratings in
timeline order as `(rating value, movie id)` pairs.  The job keeps only
ratings of at least `min_rating`, drops timelines shorter than `min_length`,
and splits each kept timeline; the three output files partition this pool
(the partition sizes and the shuffling live in the framework and are not
claimed about). -/
def buildRecordsPool (j : BuildRecords) (users : List (Int × List (ℚ × Int))) :
    List TimelineRecord :=
  ((users.map fun u => keptTimeline j.min_rating u.2).filter
      fun tl => decide (j.min_length ≤ tl.length)).map
    (splitTimeline j.target_ratio)

/-! ## Helper lemmas -/

theorem lookupAll_length (inv : Int → Option Int) :
    ∀ (l : List Int) {vs : List Int}, lookupAll inv l = some vs → vs.length = l.length := by
  intro l
  induction l with
  | nil =>
    intro vs h
    simp only [lookupAll, Option.some.injEq] at h
    subst h
    rfl
  | cons i rest ih =>
    intro vs h
    rw [lookupAll] at h
    cases hi : inv i <;> rw [hi] at h
    · exact absurd h (by simp)
    · cases hr : lookupAll inv rest <;> rw [hr] at h
      · exact absurd h (by simp)
      · simp only [Option.some.injEq] at h
        subst h
        simp [ih hr]

theorem lookupAll_eq_none_iff (inv : Int → Option Int) :
    ∀ (l : List Int), lookupAll inv l = none ↔ ∃ i ∈ l, inv i = none := by
  intro l
  induction l with
  | nil => simp [lookupAll]
  | cons i rest ih =>
    rw [lookupAll]
    constructor
    · intro h
      cases hi : inv i
      · exact ⟨i, List.mem_cons_self i rest, hi⟩
      · cases hr : lookupAll inv rest
        · rcases ih.mp hr with ⟨j, hj, hjn⟩
          exact ⟨j, List.mem_cons_of_mem i hj, hjn⟩
        · rw [hi, hr] at h
          simp at h
    · rintro ⟨j, hj, hjn⟩
      rcases List.mem_cons.mp hj with hj | hj
      · subst hj
        rw [hjn]
      · have hrest : lookupAll inv rest = none := ih.mpr ⟨j, hj, hjn⟩
        rw [hrest]
        cases inv i <;> rfl

theorem map_overwrite_of_not_mem {α β : Type} [DecidableEq α] (k0 : α) (v0 : β) :
    ∀ (d : List (α × β)), k0 ∉ d.map Prod.fst →
      (d.map fun p => if p.1 = k0 then (k0, v0) else p) = d := by
  intro d
  induction d with
  | nil => intro _; rfl
  | cons p ps ih =>
    intro hd
    simp only [List.map_cons, List.mem_cons, not_or] at hd
    obtain ⟨h1, h2⟩ := hd
    rw [List.map_cons, ih h2, if_neg (fun hc => h1 hc.symm)]

theorem dictGet_mem {α β : Type} [DecidableEq α] :
    ∀ {es : List (α × β)} {k : α} {v : β}, dictGet es k = some v → (k, v) ∈ es := by
  intro es
  induction es with
  | nil => intro k v h; simp [dictGet] at h
  | cons p ps ih =>
    intro k v h
    obtain ⟨a, b⟩ := p
    rw [dictGet] at h
    cases hg : dictGet ps k <;> rw [hg] at h
    · by_cases hpk : a = k
      · rw [if_pos hpk] at h
        injection h with h2
        subst h2
        subst hpk
        exact List.mem_cons_self _ _
      · rw [if_neg hpk] at h
        exact absurd h (by simp)
    · injection h with h2
      subst h2
      exact List.mem_cons_of_mem _ (ih hg)

theorem dictGet_eq_some_of_mem_nodup {α β : Type} [DecidableEq α] :
    ∀ {es : List (α × β)}, ((es.map Prod.fst).Nodup) →
      ∀ {k : α} {v : β}, (k, v) ∈ es → dictGet es k = some v := by
  intro es
  induction es with
  | nil => intro _ k v h; simp at h
  | cons p ps ih =>
    intro hnd k v hm
    obtain ⟨a, b⟩ := p
    simp only [List.map_cons, List.nodup_cons] at hnd
    obtain ⟨hnotin, hnd2⟩ := hnd
    rw [dictGet]
    rcases List.mem_cons.mp hm with heq | hmem
    · rw [Prod.mk.injEq] at heq
      obtain ⟨rfl, rfl⟩ := heq
      cases hg : dictGet ps k with
      | none => rw [if_pos rfl]
      | some w =>
        exact absurd (List.mem_map_of_mem Prod.fst (dictGet_mem hg)) hnotin
    · rw [ih hnd2 hmem]

theorem pyDictInsert_of_not_mem {α β : Type} [DecidableEq α] {d : List (α × β)} {k : α}
    (h : k ∉ d.map Prod.fst) (v : β) : pyDictInsert d k v = d ++ [(k, v)] := by
  rw [pyDictInsert, if_neg h]

theorem foldl_pyDictInsert_of_nodup {α β : Type} [DecidableEq α] :
    ∀ (es acc : List (α × β)), (((acc ++ es).map Prod.fst).Nodup) →
      es.foldl (fun d p => pyDictInsert d p.1 p.2) acc = acc ++ es := by
  intro es
  induction es with
  | nil => intro acc _; simp
  | cons p ps ih =>
    intro acc h
    obtain ⟨a, b⟩ := p
    have hsplit : ((acc.map Prod.fst) ++ (a :: ps.map Prod.fst)).Nodup := by
      simpa using h
    rw [List.nodup_append] at hsplit
    obtain ⟨h1, h2, h3⟩ := hsplit
    have hnotin : a ∉ acc.map Prod.fst := fun hmem => h3 hmem (List.mem_cons_self a _)
    rw [List.foldl_cons]
    have hstep : pyDictInsert acc a b = acc ++ [(a, b)] := pyDictInsert_of_not_mem hnotin b
    rw [hstep, ih (acc ++ [(a, b)]) (by simpa [List.append_assoc] using h)]
    simp

theorem pyDict_eq_self_of_nodup {α β : Type} [DecidableEq α] {es : List (α × β)}
    (h : (es.map Prod.fst).Nodup) : pyDict es = es := by
  have := foldl_pyDictInsert_of_nodup es [] (by simpa using h)
  simpa [pyDict] using this

theorem dictGet_append_single {α β : Type} [DecidableEq α] :
    ∀ (d : List (α × β)) (k0 k : α) (v0 : β),
      dictGet (d ++ [(k0, v0)]) k = if k0 = k then some v0 else dictGet d k := by
  intro d
  induction d with
  | nil =>
    intro k0 k v0
    simp [dictGet]
  | cons p ps ih =>
    intro k0 k v0
    rw [List.cons_append, dictGet, ih]
    by_cases h : k0 = k
    · rw [if_pos h, if_pos h]
    · rw [if_neg h, if_neg h, dictGet]

theorem dictGet_overwrite {α β : Type} [DecidableEq α] :
    ∀ (d : List (α × β)) (k0 k : α) (v0 : β), k0 ∈ d.map Prod.fst →
      dictGet (d.map fun p => if p.1 = k0 then (k0, v0) else p) k =
        if k0 = k then some v0 else dictGet d k := by
  intro d
  induction d with
  | nil => intro k0 k v0 h; simp at h
  | cons p ps ih =>
    intro k0 k v0 hmem
    obtain ⟨a, b⟩ := p
    rw [List.map_cons]
    by_cases htail : k0 ∈ ps.map Prod.fst
    · rw [dictGet, ih k0 k v0 htail]
      by_cases h : k0 = k
      · simp only [if_pos h]
      · simp only [if_neg h]
        rw [dictGet]
        cases hg : dictGet ps k
        · by_cases ha : a = k0
          · have hak : ¬(a = k) := fun hc => h (ha ▸ hc)
            simp [ha, hak, fun hc : k0 = k => h hc]
          · simp [ha]
        · rfl
    · have hhead : a = k0 := by
        simp only [List.map_cons, List.mem_cons] at hmem
        rcases hmem with h | h
        · exact h.symm
        · exact absurd h htail
      subst hhead
      rw [map_overwrite_of_not_mem a v0 ps htail]
      rw [dictGet, dictGet]
      cases hg : dictGet ps k
      · by_cases h : a = k
        · simp [h]
        · simp [h]
      · have hk : ¬(a = k) := by
          intro hc
          subst hc
          exact htail (List.mem_map_of_mem Prod.fst (dictGet_mem hg))
        simp [hk, fun hc : a = k => hk hc]

theorem dictGet_pyDictInsert {α β : Type} [DecidableEq α] (d : List (α × β)) (k0 k : α)
    (v0 : β) :
    dictGet (pyDictInsert d k0 v0) k = if k0 = k then some v0 else dictGet d k := by
  rw [pyDictInsert]
  by_cases hmem : k0 ∈ d.map Prod.fst
  · rw [if_pos hmem]
    exact dictGet_overwrite d k0 k v0 hmem
  · rw [if_neg hmem]
    exact dictGet_append_single d k0 k v0

theorem dictGet_foldl_pyDictInsert {α β : Type} [DecidableEq α] :
    ∀ (es acc : List (α × β)) (k : α),
      dictGet (es.foldl (fun d p => pyDictInsert d p.1 p.2) acc) k =
        match dictGet es k with
        | some v => some v
        | none => dictGet acc k := by
  intro es
  induction es with
  | nil => intro acc k; rfl
  | cons p ps ih =>
    intro acc k
    obtain ⟨a, b⟩ := p
    rw [List.foldl_cons, ih, dictGet_pyDictInsert]
    cases hg : dictGet ps k
    · by_cases h : a = k <;> simp [dictGet, hg, h]
    · simp [dictGet, hg]

theorem dictGet_pyDict {α β : Type} [DecidableEq α] (es : List (α × β)) (k : α) :
    dictGet (pyDict es) k = dictGet es k := by
  rw [pyDict, dictGet_foldl_pyDictInsert]
  cases hg : dictGet es k <;> simp [dictGet]

theorem pyDictInsert_length_le {α β : Type} [DecidableEq α] (d : List (α × β)) (k : α)
    (v : β) : (pyDictInsert d k v).length ≤ d.length + 1 := by
  rw [pyDictInsert]
  by_cases h : k ∈ d.map Prod.fst
  · simp [h]
  · simp [h]

theorem self_mem_keys_pyDictInsert {α β : Type} [DecidableEq α] (d : List (α × β)) (k : α)
    (v : β) : k ∈ (pyDictInsert d k v).map Prod.fst := by
  rw [pyDictInsert]
  by_cases h : k ∈ d.map Prod.fst
  · rw [if_pos h]
    rcases List.mem_map.mp h with ⟨p, hp, hpk⟩
    exact List.mem_map.mpr ⟨(k, v), List.mem_map.mpr ⟨p, hp, by rw [if_pos hpk]⟩, rfl⟩
  · rw [if_neg h]
    simp

theorem mem_keys_pyDictInsert {α β : Type} [DecidableEq α] (d : List (α × β)) (k : α) (v : β)
    {a : α} (h : a ∈ d.map Prod.fst) : a ∈ (pyDictInsert d k v).map Prod.fst := by
  rw [pyDictInsert]
  by_cases hm : k ∈ d.map Prod.fst
  · rw [if_pos hm]
    rcases List.mem_map.mp h with ⟨p, hp, hpk⟩
    by_cases hpk0 : p.1 = k
    · refine List.mem_map.mpr ⟨(k, v), List.mem_map.mpr ⟨p, hp, by rw [if_pos hpk0]⟩, ?_⟩
      rw [← hpk, hpk0]
    · exact List.mem_map.mpr ⟨p, List.mem_map.mpr ⟨p, hp, by rw [if_neg hpk0]⟩, hpk⟩
  · rw [if_neg hm]
    rw [List.map_append, List.mem_append]
    exact Or.inl h

theorem foldl_pyDictInsert_length_le {α β : Type} [DecidableEq α] :
    ∀ (es acc : List (α × β)),
      (es.foldl (fun d p => pyDictInsert d p.1 p.2) acc).length ≤ acc.length + es.length := by
  intro es
  induction es with
  | nil => intro acc; simp
  | cons p ps ih =>
    intro acc
    rw [List.foldl_cons]
    have h1 := ih (pyDictInsert acc p.1 p.2)
    have h2 := pyDictInsert_length_le acc p.1 p.2
    simp only [List.length_cons]
    omega

theorem mem_keys_foldl_pyDictInsert {α β : Type} [DecidableEq α] :
    ∀ (es acc : List (α × β)) {a : α}, a ∈ acc.map Prod.fst →
      a ∈ ((es.foldl (fun d p => pyDictInsert d p.1 p.2) acc).map Prod.fst) := by
  intro es
  induction es with
  | nil => intro acc a h; simpa using h
  | cons p ps ih =>
    intro acc a h
    rw [List.foldl_cons]
    exact ih _ (mem_keys_pyDictInsert acc p.1 p.2 h)

theorem foldl_pyDictInsert_length_lt {α β : Type} [DecidableEq α] :
    ∀ (es acc : List (α × β)) {a : α}, a ∈ acc.map Prod.fst → a ∈ es.map Prod.fst →
      (es.foldl (fun d p => pyDictInsert d p.1 p.2) acc).length < acc.length + es.length := by
  intro es
  induction es with
  | nil => intro acc a _ h2; simp at h2
  | cons p ps ih =>
    intro acc a hacc hes
    rw [List.foldl_cons]
    simp only [List.map_cons, List.mem_cons] at hes
    by_cases hpa : p.1 = a
    · have hlen : (pyDictInsert acc p.1 p.2).length = acc.length := by
        rw [pyDictInsert, if_pos (by rw [hpa]; exact hacc)]
        simp
      have h1 := foldl_pyDictInsert_length_le ps (pyDictInsert acc p.1 p.2)
      simp only [List.length_cons]
      omega
    · rcases hes with h | h
      · exact absurd h.symm hpa
      · have hacc2 : a ∈ (pyDictInsert acc p.1 p.2).map Prod.fst :=
          mem_keys_pyDictInsert acc p.1 p.2 hacc
        have h1 := ih (pyDictInsert acc p.1 p.2) hacc2 h
        have h2 := pyDictInsert_length_le acc p.1 p.2
        simp only [List.length_cons]
        omega

theorem foldl_pyDictInsert_length_lt_of_dup {α β : Type} [DecidableEq α] :
    ∀ (es acc : List (α × β)), ¬ ((es.map Prod.fst).Nodup) →
      (es.foldl (fun d p => pyDictInsert d p.1 p.2) acc).length < acc.length + es.length := by
  intro es
  induction es with
  | nil => intro acc h; simp at h
  | cons p ps ih =>
    intro acc hdup
    rw [List.foldl_cons]
    by_cases hmem : p.1 ∈ ps.map Prod.fst
    · have hacc : p.1 ∈ (pyDictInsert acc p.1 p.2).map Prod.fst :=
        self_mem_keys_pyDictInsert acc p.1 p.2
      have h1 := foldl_pyDictInsert_length_lt ps (pyDictInsert acc p.1 p.2) hacc hmem
      have h2 := pyDictInsert_length_le acc p.1 p.2
      simp only [List.length_cons]
      omega
    · have hdup2 : ¬ ((ps.map Prod.fst).Nodup) := by
        intro hnd
        exact hdup (by rw [List.map_cons, List.nodup_cons]; exact ⟨hmem, hnd⟩)
      have h1 := ih (pyDictInsert acc p.1 p.2) hdup2
      have h2 := pyDictInsert_length_le acc p.1 p.2
      simp only [List.length_cons]
      omega

theorem pyDict_length_lt_of_dup {α β : Type} [DecidableEq α] {es : List (α × β)}
    (h : ¬ ((es.map Prod.fst).Nodup)) : (pyDict es).length < es.length := by
  have := foldl_pyDictInsert_length_lt_of_dup es [] h
  simpa [pyDict] using this

theorem parseTokens_snd :
    ∀ (ts : List (List Char)) (i : Nat) {es : List (Int × Nat)},
      parseTokens ts i = some es → es.map Prod.snd = List.range' i ts.length := by
  intro ts
  induction ts with
  | nil =>
    intro i es h
    simp only [parseTokens, Option.some.injEq] at h
    subst h
    rfl
  | cons t ts2 ih =>
    intro i es h
    rw [parseTokens] at h
    cases hp : pyIntChars t <;> rw [hp] at h
    · simp at h
    · cases hr : parseTokens ts2 (i + 1) <;> rw [hr] at h
      · simp at h
      · simp only [Option.some.injEq] at h
        subst h
        simp [ih (i + 1) hr, List.range']

theorem parseTokens_none_of_mem :
    ∀ (ts : List (List Char)) (i : Nat) {t : List Char},
      t ∈ ts → pyIntChars t = none → parseTokens ts i = none := by
  intro ts
  induction ts with
  | nil => intro i t h _; simp at h
  | cons t2 ts2 ih =>
    intro i t hmem hnone
    rw [parseTokens]
    rcases List.mem_cons.mp hmem with h | h
    · subst h
      rw [hnone]
    · rw [ih (i + 1) h hnone]
      cases pyIntChars t2 <;> rfl

theorem splitNl_ne_nil : ∀ (l : List Char), splitNl l ≠ [] := by
  intro l
  induction l with
  | nil => simp [splitNl]
  | cons c cs ih =>
    rw [splitNl]
    cases h : splitNl cs
    · exact absurd h ih
    · by_cases hc : c = '\n' <;> simp [hc]

theorem splitNl_append_newline :
    ∀ (l : List Char), splitNl (l ++ ['\n']) = splitNl l ++ [[]] := by
  intro l
  induction l with
  | nil => rfl
  | cons c cs ih =>
    rw [List.cons_append, splitNl, ih, splitNl]
    cases h : splitNl cs
    · exact absurd h (splitNl_ne_nil cs)
    · by_cases hc : c = '\n' <;> simp [hc]

theorem dictGet_eq_last_occurrence :
    ∀ (es : List (Int × Nat)), (es.Pairwise fun a b => a.2 < b.2) →
      ∀ (k : Int) (j : Nat), (k, j) ∈ es → (∀ l, (k, l) ∈ es → l ≤ j) →
      dictGet es k = some j := by
  intro es
  induction es with
  | nil => intro _ k j h _; simp at h
  | cons p ps ih =>
    intro hsort k j hmem hmax
    rw [List.pairwise_cons] at hsort
    obtain ⟨hhead, htail⟩ := hsort
    rw [dictGet]
    rcases List.mem_cons.mp hmem with heq | hmem2
    · have hnone : dictGet ps k = none := by
        cases hg : dictGet ps k with
        | none => rfl
        | some w =>
          have hw : (k, w) ∈ ps := dictGet_mem hg
          have h1 : j < w := by
            have := hhead (k, w) hw
            rw [← heq] at this
            exact this
          have h2 : w ≤ j := hmax w (List.mem_cons_of_mem p hw)
          omega
      rw [hnone, ← heq]
      simp
    · rw [ih htail k j hmem2 (fun l hl => hmax l (List.mem_cons_of_mem p hl))]

/-! ## Claim theorems -/

/-- C1: `knn_query` performs no search logic of its own.  Whenever the
external index's `search` on the batch `[query]` returns a distance row `ds`
and an index row `indices` of length `ksearch`, and `inversed_map` maps the
index row to `ids`, the result is exactly `list(zip(product_ids, distances))`
— the indices mapped through `inversed_map`, zipped with the distances — a
list of exactly `ksearch` pairs. -/
theorem knn_query_delegates_to_index (index : FaissIndex) (inversed : Int → Option Int)
    (query : List ℚ) (ksearch : Nat) (ds : List ℚ) (indices ids : List Int)
    (hD : (index.search [query] ksearch).1 = [ds])
    (hI : (index.search [query] ksearch).2 = [indices])
    (hd : ds.length = ksearch)
    (hi : indices.length = ksearch)
    (hids : lookupAll inversed indices = some ids) :
    knn_query index inversed query ksearch = some (ids.zip ds) ∧
      (ids.zip ds).length = ksearch := by
  constructor
  · simp only [knn_query, hD, hI, List.headD_cons, hids]
  · have hlen := lookupAll_length inversed indices hids
    simp [List.length_zip, hlen, hi, hd]

/-- Witness for C1: a concrete two-neighbor index and a two-movie map. -/
theorem knn_query_delegates_to_index_witness :
    knn_query ⟨fun _ _ => ([[3, 2]], [[0, 1]])⟩
        (fun i => if i = 0 then some 30 else if i = 1 then some 40 else none) [1] 2 =
      some [((30 : Int), (3 : ℚ)), (40, 2)] ∧
      ([((30 : Int), (3 : ℚ)), (40, 2)]).length = 2 := by
  exact knn_query_delegates_to_index _ _ _ _ [3, 2] [0, 1] [30, 40] rfl rfl rfl rfl (by decide)

/-- C2: the notebook first runs `build.run()`, then `pipeline.run()` on
`Pipeline([train, predict] + evaluate)` executes the training job, the
prediction job and the three evaluation jobs strictly sequentially, each
stage finishing before the next one starts. -/
theorem pipeline_executes_stages_in_order :
    notebookTrace =
      [Event.start Stage.build, Event.finish Stage.build,
       Event.start Stage.train, Event.finish Stage.train,
       Event.start Stage.predict, Event.finish Stage.predict,
       Event.start (Stage.evaluate 10), Event.finish (Stage.evaluate 10),
       Event.start (Stage.evaluate 20), Event.finish (Stage.evaluate 20),
       Event.start (Stage.evaluate 50), Event.finish (Stage.evaluate 50)] := rfl

/-- C3: the persisted artifacts are hand-offs between consecutive stages:
`BuildRecords` gets the very path that the Trainer cell's two
`dpr.vocab.size` evaluations read; `Predict` and every `Evaluate` job get
the same predictions path; every `Evaluate` job's embeddings and biases
paths are `path_variables + "/embeddings"` and `path_variables + "/biases"`
for the very directory the `SaveVariables` exporter writes `biases` and
`embeddings` into; and each of these paths extends `path_root = "average"`. -/
theorem persisted_paths_wire_stages :
    (∀ dataset_path, (build dataset_path).path_mapping = path_mapping) ∧
    constructTrainReads = [Eff.readFile path_mapping, Eff.readFile path_mapping] ∧
    predict.path_predictions = path_predictions ∧
    evaluate.map Evaluate.path_predictions =
      [predict.path_predictions, predict.path_predictions, predict.path_predictions] ∧
    (∀ tokens, Exporter.saveVariables train_save_variables ∈ (train tokens).exporters) ∧
    train_save_variables.variable_names = ["biases", "embeddings"] ∧
    evaluate.map Evaluate.path_embeddings =
      List.replicate 3 (train_save_variables.path_variables ++ "/embeddings") ∧
    evaluate.map Evaluate.path_biases =
      List.replicate 3 (train_save_variables.path_variables ++ "/biases") ∧
    path_root = "average" ∧
    path_mapping = path_root ++ "/data/mapping.txt" ∧
    path_predictions = path_root ++ "/predictions.parquet.snappy" ∧
    train_save_variables.path_variables = path_root ++ "/variables" ∧
    train_save_variables.path_variables ++ "/embeddings" = path_root ++ "/variables/embeddings" ∧
    train_save_variables.path_variables ++ "/biases" = path_root ++ "/variables/biases" := by
  refine ⟨fun d => rfl, rfl, rfl, rfl, fun tokens => ?_, rfl, rfl, rfl, rfl,
    by decide, rfl, rfl, by decide, by decide⟩
  simp [train, train_save_variables]

/-- Witness for C3's two quantified conjuncts at concrete inputs. -/
theorem persisted_paths_wire_stages_witness :
    (build "ml-20m").path_mapping = path_mapping ∧
    Exporter.saveVariables train_save_variables ∈ (train [['3'], ['5']]).exporters :=
  ⟨persisted_paths_wire_stages.1 "ml-20m",
   (persisted_paths_wire_stages.2.2.2.2.1) [['3'], ['5']]⟩

/-- C4: the evaluation stage is exactly three `Evaluate` jobs, one per k in
`[10, 20, 50]` in that order, all reading the same predictions, embeddings
and biases paths and differing only in k; the pipeline holds one evaluation
stage per k. -/
theorem evaluate_jobs_cover_ks :
    evaluate.length = 3 ∧
    evaluate.map Evaluate.k = [10, 20, 50] ∧
    evaluate.map Evaluate.path_predictions = List.replicate 3 path_predictions ∧
    evaluate.map Evaluate.path_embeddings = List.replicate 3 (path_variables ++ "/embeddings") ∧
    evaluate.map Evaluate.path_biases = List.replicate 3 (path_variables ++ "/biases") ∧
    pipelineJobs =
      [Stage.train, Stage.predict, Stage.evaluate 10, Stage.evaluate 20, Stage.evaluate 50] :=
  ⟨rfl, rfl, rfl, rfl, rfl, rfl⟩

/-- C6 counterexample: constructing the four job objects is not free of
observable work — the Trainer cell's construction evaluates
`dpr.vocab.size(path_mapping)`, reading the mapping file, so its
construction-reads trace is not empty. -/
theorem trainer_construction_reads_a_file : constructTrainReads ≠ [] := by decide

/-- C6 amended: constructing `BuildRecords`, `Predict` and the `Evaluate`
jobs is pure parameter capture with no observable work; constructing the
Trainer additionally evaluates `dpr.vocab.size(path_mapping)` twice, reading
the mapping file, and performs no other observable work. -/
theorem construction_is_parameter_capture_except_vocab :
    constructBuildReads = [] ∧ constructPredictReads = [] ∧ constructEvaluateReads = [] ∧
    constructTrainReads = [Eff.readFile path_mapping, Eff.readFile path_mapping] :=
  ⟨rfl, rfl, rfl, rfl⟩

/-- C8: for a mapping file whose newline-separated tokens are distinct
integers, `mapp` and `inversed_map` are mutually inverse:
`inversed_map[mapp[movie_id]] = movie_id` for every key of `mapp`,
`mapp[inversed_map[i]] = i` for every key of `inversed_map`, and the keys of
`inversed_map` are exactly `0, 1, ..., n-1` for `n` tokens. -/
theorem mapp_inversed_mutually_inverse (content : List Char) (es : List (Int × Nat))
    (hp : parseTokens (splitNl content) 0 = some es)
    (hnd : ((es.map Prod.fst).Nodup)) :
    mappOf content = some es ∧
    inversedMapOf content = some (es.map Prod.swap) ∧
    (∀ (k : Int) (v : Nat), dictGet es k = some v → dictGet (es.map Prod.swap) v = some k) ∧
    (∀ (v : Nat) (k : Int), dictGet (es.map Prod.swap) v = some k → dictGet es k = some v) ∧
    (es.map Prod.swap).map Prod.fst = List.range (splitNl content).length := by
  have hsnd := parseTokens_snd (splitNl content) 0 hp
  have hkeys_swap : (es.map Prod.swap).map Prod.fst =
      List.range' 0 (splitNl content).length := by
    rw [List.map_map]
    exact hsnd
  have hnodup_swap : (((es.map Prod.swap).map Prod.fst).Nodup) := by
    rw [hkeys_swap]
    exact List.nodup_range' 0 _
  have hmapp : mappOf content = some es := by
    rw [mappOf, hp, Option.map_some', pyDict_eq_self_of_nodup hnd]
  have hinv : inversedMapOf content = some (es.map Prod.swap) := by
    rw [inversedMapOf, hmapp, Option.map_some', pyDict_eq_self_of_nodup hnodup_swap]
  refine ⟨hmapp, hinv, ?_, ?_, ?_⟩
  · intro k v h
    exact dictGet_eq_some_of_mem_nodup hnodup_swap
      (List.mem_map.mpr ⟨(k, v), dictGet_mem h, rfl⟩)
  · intro v k h
    rcases List.mem_map.mp (dictGet_mem h) with ⟨⟨k2, v2⟩, hmem2, heq⟩
    rw [Prod.swap_prod_mk, Prod.mk.injEq] at heq
    obtain ⟨rfl, rfl⟩ := heq
    exact dictGet_eq_some_of_mem_nodup hnd hmem2
  · rw [hkeys_swap, List.range_eq_range']

/-- Witness for C8 on the two-token file "3\n5". -/
theorem mapp_inversed_mutually_inverse_witness :
    mappOf ['3', '\n', '5'] = some [(3, 0), (5, 1)] ∧
    inversedMapOf ['3', '\n', '5'] = some ([((3 : Int), (0 : Nat)), (5, 1)].map Prod.swap) ∧
    (∀ (k : Int) (v : Nat), dictGet [((3 : Int), (0 : Nat)), (5, 1)] k = some v →
      dictGet ([((3 : Int), (0 : Nat)), (5, 1)].map Prod.swap) v = some k) ∧
    (∀ (v : Nat) (k : Int), dictGet ([((3 : Int), (0 : Nat)), (5, 1)].map Prod.swap) v = some k →
      dictGet [((3 : Int), (0 : Nat)), (5, 1)] k = some v) ∧
    ([((3 : Int), (0 : Nat)), (5, 1)].map Prod.swap).map Prod.fst =
      List.range (splitNl ['3', '\n', '5']).length :=
  mapp_inversed_mutually_inverse ['3', '\n', '5'] [(3, 0), (5, 1)] (by decide) (by decide)

/-- C9: `mapp` applies `int()` to every piece of the file split on newlines,
so an empty file, a file with a trailing newline, and a file with an
unparsable line all raise ValueError (`none`); and when two lines parse to
the same integer, `mapp` keeps the later position for that movie id, loses
the earlier position, and has fewer entries than the file has lines. -/
theorem mapp_int_errors_and_duplicate_collapse :
    mappOf [] = none ∧
    (∀ (content : List Char), content.getLast? = some '\n' → mappOf content = none) ∧
    (∀ (content : List Char) (t : List Char), t ∈ splitNl content → pyIntChars t = none →
      mappOf content = none) ∧
    (∀ (content : List Char) (es : List (Int × Nat)) (v : Int) (i j : Nat),
      parseTokens (splitNl content) 0 = some es →
      (v, i) ∈ es → (v, j) ∈ es → i < j → (∀ l, (v, l) ∈ es → l ≤ j) →
      mappOf content = some (pyDict es) ∧ dictGet (pyDict es) v = some j ∧
        dictGet (pyDict es) v ≠ some i ∧ (pyDict es).length < (splitNl content).length) := by
  have hmem_none : ∀ (content : List Char) (t : List Char), t ∈ splitNl content →
      pyIntChars t = none → mappOf content = none := by
    intro content t hmem hnone
    rw [mappOf, parseTokens_none_of_mem (splitNl content) 0 hmem hnone]
    rfl
  refine ⟨by decide, ?_, hmem_none, ?_⟩
  · intro content hlast
    rcases List.eq_nil_or_concat content with rfl | ⟨L, b, rfl⟩
    · simp at hlast
    · rw [List.concat_eq_append] at hlast ⊢
      rw [List.getLast?_concat] at hlast
      injection hlast with hb
      subst hb
      refine hmem_none (L ++ ['\n']) [] ?_ (by decide)
      rw [splitNl_append_newline]
      exact List.mem_append_right _ (List.mem_singleton.mpr rfl)
  · intro content es v i j hp hi hj hij hmax
    have hsnd := parseTokens_snd (splitNl content) 0 hp
    have hsort : es.Pairwise fun a b => a.2 < b.2 := by
      rw [← List.pairwise_map (R := fun a b => a < b)]
      rw [hsnd]
      exact List.pairwise_lt_range' 0 _
    have hlookup : dictGet (pyDict es) v = some j := by
      rw [dictGet_pyDict]
      exact dictGet_eq_last_occurrence es hsort v j hj hmax
    have hdup : ¬ ((es.map Prod.fst).Nodup) := by
      intro hnd
      have := List.inj_on_of_nodup_map hnd hi hj rfl
      rw [Prod.mk.injEq] at this
      omega
    have hlen : es.length = (splitNl content).length := by
      have := congrArg List.length hsnd
      simpa using this
    refine ⟨by rw [mappOf, hp]; rfl, hlookup, ?_, ?_⟩
    · rw [hlookup]
      intro hcon
      injection hcon with hc
      omega
    · rw [← hlen]
      exact pyDict_length_lt_of_dup hdup

/-- Witness for C9's duplicate clause on the file "7\n7" (plus the empty
file clause). -/
theorem mapp_int_errors_and_duplicate_collapse_witness :
    mappOf ['7', '\n', '7'] = some (pyDict [(7, 0), (7, 1)]) ∧
    dictGet (pyDict [((7 : Int), (0 : Nat)), (7, 1)]) 7 = some 1 ∧
    dictGet (pyDict [((7 : Int), (0 : Nat)), (7, 1)]) 7 ≠ some 0 ∧
    (pyDict [((7 : Int), (0 : Nat)), (7, 1)]).length < (splitNl ['7', '\n', '7']).length :=
  mapp_int_errors_and_duplicate_collapse.2.2.2 ['7', '\n', '7'] [(7, 0), (7, 1)] 7 0 1
    (by decide) (by decide) (by decide) (by decide)
    (by intro l hl; simp at hl; omega)

theorem movieFieldAt_eq_none_iff {α : Type} (movies : List MovieRow) (col : MovieRow → α)
    (movie_id : Int) :
    movieFieldAt movies col movie_id = none ↔
      (movies.filter fun r => r.movieId == movie_id) = [] := by
  rw [movieFieldAt, List.head?_eq_none_iff, List.map_eq_nil_iff]

theorem rowFor_eq_none_iff (movies : List MovieRow) (p : Int × ℚ) :
    rowFor movies p = none ↔ (movies.filter fun r => r.movieId == p.1) = [] := by
  constructor
  · intro h
    by_cases hf : (movies.filter fun r => r.movieId == p.1) = []
    · exact hf
    · have hg : movieFieldAt movies MovieRow.genres p.1 ≠ none :=
        fun hn => hf ((movieFieldAt_eq_none_iff movies MovieRow.genres p.1).mp hn)
      have ht : movieFieldAt movies MovieRow.title p.1 ≠ none :=
        fun hn => hf ((movieFieldAt_eq_none_iff movies MovieRow.title p.1).mp hn)
      rcases Option.ne_none_iff_exists'.mp hg with ⟨g, hg2⟩
      rcases Option.ne_none_iff_exists'.mp ht with ⟨t, ht2⟩
      rw [rowFor, hg2, ht2] at h
      simp at h
  · intro hf
    rw [rowFor, (movieFieldAt_eq_none_iff movies MovieRow.genres p.1).mpr hf]

theorem display_movie_eq_none_iff (movies : List MovieRow) (movie_id : Int) :
    display_movie movies movie_id = none ↔
      (movies.filter fun r => r.movieId == movie_id) = [] := by
  constructor
  · intro h
    by_cases hf : (movies.filter fun r => r.movieId == movie_id) = []
    · exact hf
    · have hg : movieFieldAt movies MovieRow.genres movie_id ≠ none :=
        fun hn => hf ((movieFieldAt_eq_none_iff movies MovieRow.genres movie_id).mp hn)
      have ht : movieFieldAt movies MovieRow.title movie_id ≠ none :=
        fun hn => hf ((movieFieldAt_eq_none_iff movies MovieRow.title movie_id).mp hn)
      rcases Option.ne_none_iff_exists'.mp hg with ⟨g, hg2⟩
      rcases Option.ne_none_iff_exists'.mp ht with ⟨t, ht2⟩
      rw [display_movie, hg2, ht2] at h
      simp at h
  · intro hf
    rw [display_movie, (movieFieldAt_eq_none_iff movies MovieRow.genres movie_id).mpr hf]

theorem display_results_df_eq_none_iff (movies : List MovieRow) :
    ∀ (results : List (Int × ℚ)),
      display_results_df movies results = none ↔
        ∃ p ∈ results, (movies.filter fun r => r.movieId == p.1) = [] := by
  intro results
  induction results with
  | nil => simp [display_results_df]
  | cons p rest ih =>
    rw [display_results_df]
    constructor
    · intro h
      cases hr : rowFor movies p
      · exact ⟨p, List.mem_cons_self p rest, (rowFor_eq_none_iff movies p).mp hr⟩
      · cases hd : display_results_df movies rest
        · rcases ih.mp hd with ⟨q, hq, hqf⟩
          exact ⟨q, List.mem_cons_of_mem p hq, hqf⟩
        · rw [hr, hd] at h
          simp at h
    · rintro ⟨q, hq, hqf⟩
      rcases List.mem_cons.mp hq with rfl | hq2
      · rw [(rowFor_eq_none_iff movies q).mpr hqf]
      · rw [ih.mpr ⟨q, hq2, hqf⟩]
        cases rowFor movies p <;> rfl

theorem display_results_df_eq_some (movies : List MovieRow) :
    ∀ (results : List (Int × ℚ)),
      (∀ p ∈ results, (movies.filter fun r => r.movieId == p.1) ≠ []) →
      display_results_df movies results =
        some (results.map fun p =>
          { genre := (movieFieldAt movies MovieRow.genres p.1).getD ""
            title := (movieFieldAt movies MovieRow.title p.1).getD ""
            distance := p.2 }) := by
  intro results
  induction results with
  | nil => intro _; rfl
  | cons p rest ih =>
    intro hall
    have hp := hall p (List.mem_cons_self p rest)
    have hg : movieFieldAt movies MovieRow.genres p.1 ≠ none :=
      fun hn => hp ((movieFieldAt_eq_none_iff movies MovieRow.genres p.1).mp hn)
    have ht : movieFieldAt movies MovieRow.title p.1 ≠ none :=
      fun hn => hp ((movieFieldAt_eq_none_iff movies MovieRow.title p.1).mp hn)
    rcases Option.ne_none_iff_exists'.mp hg with ⟨g, hg2⟩
    rcases Option.ne_none_iff_exists'.mp ht with ⟨t, ht2⟩
    rw [display_results_df, rowFor, hg2, ht2,
      ih (fun q hq => hall q (List.mem_cons_of_mem p hq))]
    simp [hg2, ht2]

/-- C10: `display_movie` fails (IndexError from indexing `[0]` into an empty
array) exactly when the movie id is absent from the movies table;
`display_results_df` fails as soon as its input holds a pair with an absent
movie id; and when every movie id is present, it builds one row per input
pair, in input order, with the columns Genre, Title, Distance. -/
theorem display_helpers_on_missing_and_present (movies : List MovieRow)
    (results : List (Int × ℚ)) :
    (∀ movie_id : Int, (movies.filter fun r => r.movieId == movie_id) = [] →
      display_movie movies movie_id = none) ∧
    ((∃ p ∈ results, (movies.filter fun r => r.movieId == p.1) = []) →
      display_results_df movies results = none) ∧
    ((∀ p ∈ results, (movies.filter fun r => r.movieId == p.1) ≠ []) →
      display_results_df movies results =
        some (results.map fun p =>
          { genre := (movieFieldAt movies MovieRow.genres p.1).getD ""
            title := (movieFieldAt movies MovieRow.title p.1).getD ""
            distance := p.2 })) :=
  ⟨fun movie_id h => (display_movie_eq_none_iff movies movie_id).mpr h,
   fun h => (display_results_df_eq_none_iff movies results).mpr h,
   fun h => display_results_df_eq_some movies results h⟩

/-- C7 counterexample: the notebook's own dict lookup inside `knn_query`
fails (a Python KeyError) when the index returns an identifier missing from
`inversed_map`: with a two-movie map and an index whose row is `[2]`, the
helper fails on its own account, not inside an external library. -/
theorem knn_query_fails_on_missing_key :
    knn_query ⟨fun _ _ => ([[1]], [[2]])⟩
      (fun i => if i = 0 then some 3 else if i = 1 then some 5 else none) [0] 1 = none := by
  decide

/-- C7 amended: the notebook defines no exception types and no error
handling, but its own helpers can fail: `knn_query` fails (a KeyError from
its own dict lookup) exactly when the index returns an identifier absent
from `inversed_map`, and the display helpers fail (IndexError) exactly when
a movie id is absent from the movies table. -/
theorem notebook_helpers_fail_exactly_on_missing_keys :
    (∀ (index : FaissIndex) (inversed : Int → Option Int) (query : List ℚ) (ksearch : Nat),
      knn_query index inversed query ksearch = none ↔
        ∃ i ∈ (index.search [query] ksearch).2.headD [], inversed i = none) ∧
    (∀ (movies : List MovieRow) (movie_id : Int),
      display_movie movies movie_id = none ↔
        (movies.filter fun r => r.movieId == movie_id) = []) ∧
    (∀ (movies : List MovieRow) (results : List (Int × ℚ)),
      display_results_df movies results = none ↔
        ∃ p ∈ results, (movies.filter fun r => r.movieId == p.1) = []) := by
  refine ⟨?_, display_movie_eq_none_iff, display_results_df_eq_none_iff⟩
  intro index inversed query ksearch
  rw [← lookupAll_eq_none_iff inversed ((index.search [query] ksearch).2.headD [])]
  simp only [knn_query]
  cases h : lookupAll inversed ((index.search [query] ksearch).2.headD []) <;> simp [h]

/-- C5: every record of the BuildRecords output pool is one user's timeline
— the ordered movie ids of that user's ratings of value at least
`min_rating = 4` — of length at least `min_length = 5`, split into an input
prefix and a target suffix holding the fraction `target_ratio = 0.2` of the
timeline. -/
theorem build_records_are_split_user_timelines (dataset_path : String)
    (users : List (Int × List (ℚ × Int))) (r : TimelineRecord)
    (hr : r ∈ buildRecordsPool (build dataset_path) users) :
    ∃ u ∈ users,
      r.inputIds ++ r.targetIds = keptTimeline 4 u.2 ∧
      5 ≤ (keptTimeline 4 u.2).length ∧
      r.targetIds.length = ⌊(1/5 : ℚ) * ((keptTimeline 4 u.2).length : ℚ)⌋₊ ∧
      r = splitTimeline (1/5) (keptTimeline 4 u.2) := by
  rw [buildRecordsPool] at hr
  rcases List.mem_map.mp hr with ⟨tl, htl, hrtl⟩
  rw [List.mem_filter] at htl
  obtain ⟨htl1, htl2⟩ := htl
  rcases List.mem_map.mp htl1 with ⟨u, hu, hutl⟩
  have hmr : (build dataset_path).min_rating = 4 := rfl
  have hml : (build dataset_path).min_length = 5 := rfl
  have hrat : (build dataset_path).target_ratio = 1/5 := rfl
  rw [hmr] at hutl
  rw [hml] at htl2
  rw [hrat] at hrtl
  subst hutl
  have hlen : 5 ≤ (keptTimeline 4 u.2).length := of_decide_eq_true htl2
  have hfl : ⌊(1/5 : ℚ) * ((keptTimeline 4 u.2).length : ℚ)⌋₊ ≤
      (keptTimeline 4 u.2).length := by
    have h1 : (1/5 : ℚ) * ((keptTimeline 4 u.2).length : ℚ) ≤
        ((keptTimeline 4 u.2).length : ℚ) := by
      apply mul_le_of_le_one_left (by positivity) (by norm_num)
    calc ⌊(1/5 : ℚ) * ((keptTimeline 4 u.2).length : ℚ)⌋₊
        ≤ ⌊((keptTimeline 4 u.2).length : ℚ)⌋₊ := Nat.floor_le_floor h1
      _ = (keptTimeline 4 u.2).length := Nat.floor_natCast _
  subst hrtl
  refine ⟨u, hu, ?_, hlen, ?_, rfl⟩
  · simp only [splitTimeline]
    exact List.take_append_drop _ _
  · simp only [splitTimeline, List.length_drop]
    omega

/-- Witness for C5 on a single user with five ratings of value 5: the pool
holds the timeline `[10, 11, 12, 13, 14]` split into input `[10, 11, 12, 13]`
and target `[14]`. -/
theorem build_records_are_split_user_timelines_witness :
    ∃ u ∈ [((1 : Int), [((5 : ℚ), (10 : Int)), (5, 11), (5, 12), (5, 13), (5, 14)])],
      (TimelineRecord.mk [10, 11, 12, 13] [14]).inputIds ++
          (TimelineRecord.mk [10, 11, 12, 13] [14]).targetIds = keptTimeline 4 u.2 ∧
      5 ≤ (keptTimeline 4 u.2).length ∧
      (TimelineRecord.mk [10, 11, 12, 13] [14]).targetIds.length =
        ⌊(1/5 : ℚ) * ((keptTimeline 4 u.2).length : ℚ)⌋₊ ∧
      TimelineRecord.mk [10, 11, 12, 13] [14] = splitTimeline (1/5) (keptTimeline 4 u.2) := by
  refine build_records_are_split_user_timelines "ml-20m"
    [((1 : Int), [((5 : ℚ), (10 : Int)), (5, 11), (5, 12), (5, 13), (5, 14)])]
    (TimelineRecord.mk [10, 11, 12, 13] [14]) ?_
  have hkept : keptTimeline 4 [((5 : ℚ), (10 : Int)), (5, 11), (5, 12), (5, 13), (5, 14)] =
      [10, 11, 12, 13, 14] := by decide
  have hfl : ⌊(1/5 : ℚ) * ((5 : Nat) : ℚ)⌋₊ = 1 := by norm_num
  simp [buildRecordsPool, build, hkept, splitTimeline, hfl]

end Movielens
